import Mathlib

/-!
Verification of the Legato OCR-to-Excel converter core.

Shallow embedding of the grid-reconstruction pipeline
(`src/core/excel_service.py`), the upload store (`src/utils/file_utils.py`)
and the PDF validator (`src/utils/pdf_utils.py`).

Strings are modelled as `List Char`.  Machine integers are `Nat` (all the
quantities involved — indices, spans, sizes, page counts — are non-negative
in the Python data model).
-/

namespace Legato

/-- Strings are modelled as lists of characters. -/
abbrev Str := List Char

/-- The apostrophe character `'` used by the sanitizer as neutralizing prefix. -/
def quoteChar : Char := Char.ofNat 39

/-- Embeds `sanitize_for_excel` (excel_service.py lines 8-18): the empty
string is returned unchanged; a string starting with `=`, `+`, `-` or `@`
gets a single quote prepended; any other string is returned unchanged. -/
def sanitize_for_excel (text : Str) : Str :=
  match text with
  | [] => []
  | ch :: rest =>
    if ch = '=' ∨ ch = '+' ∨ ch = '-' ∨ ch = '@' then
      quoteChar :: ch :: rest
    else
      ch :: rest

/-- A cell of the extracted table layout (`CellData` in models.py):
0-based origin, spans, text.  Indices and spans are naturals; the pydantic
validator guarantees spans ≥ 1, which theorems take as a hypothesis. -/
structure Cell where
  text : Str
  row_index : ℕ
  col_index : ℕ
  row_span : ℕ
  col_span : ℕ
deriving DecidableEq

/-- The full table layout (`TableLayout` in models.py). -/
structure TableLayout where
  cells : List Cell
deriving DecidableEq

/-- Embeds `TableLayout.max_rows` (models.py lines 70-74): 0 for no cells, otherwise
the maximum of `row_index + row_span` over all cells. -/
def maxRows (cells : List Cell) : ℕ :=
  cells.foldl (fun m cl => max m (cl.row_index + cl.row_span)) 0

/-- One entry of the emitted grid plan: 1-based write origin, sanitized
text, and the merge extent (1-based inclusive end coordinates) or `none`
for a plain unmerged write. -/
structure Entry where
  row : ℕ
  col : ℕ
  text : Str
  merge : Option (ℕ × ℕ)
deriving DecidableEq

/-- The inclusive coordinate rectangle claimed by a merge, mirroring the
double `range(r, end_r + 1)` / `range(c, end_c + 1)` loops. -/
def mergeRect (r c er ec : ℕ) : Finset (ℕ × ℕ) :=
  Finset.Icc r er ×ˢ Finset.Icc c ec

/-- Loop state of `render_excel`: the occupancy set, the entries written so
far, the sparse preview map (latest insertion first), and the running
preview maxima. -/
structure RState where
  occupied : Finset (ℕ × ℕ)
  writes : List Entry
  preview : List ((ℕ × ℕ) × Str)
  maxPR : ℕ
  maxPC : ℕ

/-- Initial loop state. -/
def initState : RState := ⟨∅, [], [], 0, 0⟩

/-- The 1-based write origin `(r, c)` of a cell. -/
def originOf (cell : Cell) : ℕ × ℕ := (cell.row_index + 1, cell.col_index + 1)

/-- The 1-based inclusive end coordinates `(end_r, end_c)` of a cell's
target rectangle (excel_service.py lines 74-75). -/
def cellEnd (cell : Cell) : ℕ × ℕ :=
  (cell.row_index + 1 + cell.row_span - 1, cell.col_index + 1 + cell.col_span - 1)

/-- The full 1-based target rectangle of a cell. -/
def cellRect (cell : Cell) : Finset (ℕ × ℕ) :=
  mergeRect (cell.row_index + 1) (cell.col_index + 1) (cellEnd cell).1 (cellEnd cell).2

/-- The `is_safe_merge` double loop (excel_service.py lines 78-85): no
coordinate of the target rectangle other than the origin is occupied. -/
def safeMerge (occ : Finset (ℕ × ℕ)) (cell : Cell) : Prop :=
  ∀ p ∈ cellRect cell, p ∈ occ → p = originOf cell

instance (occ : Finset (ℕ × ℕ)) (cell : Cell) : Decidable (safeMerge occ cell) := by
  unfold safeMerge; exact inferInstance

/-- Preview-map update of one loop iteration (excel_service.py lines
66-68): record the sanitized text at the raw 0-based coordinates when
`row_index < 50`. -/
def stepPv (st : RState) (cell : Cell) : List ((ℕ × ℕ) × Str) :=
  if cell.row_index < 50 then
    ((cell.row_index, cell.col_index), sanitize_for_excel cell.text) :: st.preview
  else st.preview

/-- Running `max_preview_row` update (excel_service.py line 69). -/
def stepPR (st : RState) (cell : Cell) : ℕ :=
  if cell.row_index < 50 then max st.maxPR cell.row_index else st.maxPR

/-- Running `max_preview_col` update (excel_service.py line 70). -/
def stepPC (st : RState) (cell : Cell) : ℕ :=
  if cell.row_index < 50 then max st.maxPC cell.col_index else st.maxPC

/-- One iteration of the `for cell in sorted_cells` loop of `render_excel`
(excel_service.py lines 48-97): skip if the 1-based origin is occupied;
otherwise write the sanitized value, record it in the preview when
`row_index < 50`, and resolve the merge decision. -/
def step (st : RState) (cell : Cell) : RState :=
  if originOf cell ∈ st.occupied then st
  else if cell.row_span > 1 ∨ cell.col_span > 1 then
    if safeMerge st.occupied cell then
      ⟨st.occupied ∪ cellRect cell,
       st.writes ++ [⟨cell.row_index + 1, cell.col_index + 1, sanitize_for_excel cell.text, some (cellEnd cell)⟩],
       stepPv st cell, stepPR st cell, stepPC st cell⟩
    else
      ⟨insert (originOf cell) st.occupied,
       st.writes ++ [⟨cell.row_index + 1, cell.col_index + 1, sanitize_for_excel cell.text, none⟩],
       stepPv st cell, stepPR st cell, stepPC st cell⟩
  else
    ⟨insert (originOf cell) st.occupied,
     st.writes ++ [⟨cell.row_index + 1, cell.col_index + 1, sanitize_for_excel cell.text, none⟩],
     stepPv st cell, stepPR st cell, stepPC st cell⟩

/-- The sort key comparison used by `sorted(layout.cells, key=lambda x:
(x.row_index, x.col_index))`: lexicographic on (row_index, col_index). -/
def keyLe (a b : Cell) : Prop :=
  a.row_index < b.row_index ∨
    (a.row_index = b.row_index ∧ a.col_index ≤ b.col_index)

instance : DecidableRel keyLe := fun a b => by unfold keyLe; infer_instance

instance : IsTotal Cell keyLe := ⟨by intro a b; unfold keyLe; omega⟩

instance : IsTrans Cell keyLe := ⟨by intro a b c; unfold keyLe; omega⟩

/-- Embeds `sorted(layout.cells, key=lambda x: (x.row_index, x.col_index))`.
Python's `sorted` is a stable sort by this key; `List.insertionSort`, which
keeps elements with equal keys in encounter order, computes the same list
(the output of a stable sort is uniquely determined by the comparison). -/
def sortCells (cells : List Cell) : List Cell :=
  List.insertionSort keyLe cells

/-- The whole reconstruction loop: sort, then fold the per-cell step. -/
def reconstruct (cells : List Cell) : RState :=
  (sortCells cells).foldl step initState

/-- Lookup in the sparse preview map: first (most recent) binding wins,
mirroring dictionary assignment overwriting. -/
def lookupPv (pv : List ((ℕ × ℕ) × Str)) (k : ℕ × ℕ) : Option Str :=
  (pv.find? (fun e => decide (e.1 = k))).map (fun e => e.2)

/-- Embeds `preview_data.get((r, c))`. -/
def previewLookup (st : RState) (k : ℕ × ℕ) : Option Str :=
  lookupPv st.preview k

/-- Materialization of the dense preview matrix (excel_service.py lines
128-133): `min(max_preview_row + 1, 50)` rows by `max_preview_col + 1`
columns, missing coordinates rendered as the empty string. -/
def previewMatrix (st : RState) : List (List Str) :=
  (List.range (min (st.maxPR + 1) 50)).map fun r =>
    (List.range (st.maxPC + 1)).map fun c => (previewLookup st (r, c)).getD []

/-- Result of a conversion: the grid plan (write entries), the preview
matrix, and the reported row count (`layout.max_rows`). -/
structure ConversionResult where
  writes : List Entry
  preview : List (List Str)
  row_count : ℕ

/-- Embeds `render_excel` (excel_service.py lines 20-143), observed through the
grid plan it writes, the preview matrix and the row count.  The openpyxl
byte serialization and styling are outside the embedding. -/
def render_excel (layout : TableLayout) : ConversionResult :=
  let st := reconstruct layout.cells
  ⟨st.writes, previewMatrix st, maxRows layout.cells⟩

/-! ## Upload store (`file_utils.py`) -/

/-- Constant `MAX_FILE_SIZE_BYTES = 20 * 1024 * 1024` (file_utils.py line 14). -/
def MAX_FILE_SIZE_BYTES : ℕ := 20 * 1024 * 1024

/-- Constant `ALLOWED_EXTENSIONS` (file_utils.py line 17). -/
def ALLOWED_EXTENSIONS : List Str :=
  [".png".toList, ".jpg".toList, ".jpeg".toList, ".webp".toList, ".pdf".toList]

/-- An uploaded file as `save_uploaded_file` observes it: the reported
`size` attribute, the lowercased extension derived from the (normalized)
name, and the actual byte content served by `read`. -/
structure UploadedFile where
  size : ℕ
  suffix : Str
  content : List ℕ

/-- On-disk outcome of a save: whether the per-upload directory and the
destination file still exist, and the bytes written to the file. -/
structure SaveState where
  dirExists : Bool
  fileExists : Bool
  fileContent : List ℕ
deriving DecidableEq

/-- The `while True` copy loop of `save_uploaded_file` (file_utils.py lines
116-125): read 1 MiB chunks, add each chunk length to the running total,
and fail the moment the total exceeds the limit (before writing that
chunk); otherwise write the chunk and continue. -/
def copyLoop (rem : List ℕ) (total : ℕ) (written : List ℕ) : Except Unit (List ℕ) :=
  if rem = [] then Except.ok written
  else
    let chunk := rem.take (1024 * 1024)
    let total' := total + chunk.length
    if total' > MAX_FILE_SIZE_BYTES then Except.error ()
    else copyLoop (rem.drop (1024 * 1024)) total' (written ++ chunk)
termination_by rem.length
decreasing_by
  simp only [List.length_drop]
  have : rem.length ≠ 0 := by
    intro h0
    exact (by assumption : ¬ rem = []) (List.eq_nil_of_length_eq_zero h0)
  omega

/-- Error message of the pre-check (file_utils.py line 91). -/
def msgTooLarge : Str := "File too large. Maximum size is 20.0MB.".toList

/-- Error message of the mid-copy abort (file_utils.py line 124). -/
def msgLimitDuringUpload : Str := "File size limit exceeded during upload.".toList

/-- Embeds `save_uploaded_file` (file_utils.py lines 84-139), with the filesystem
effects made explicit as a `SaveState`: the size pre-check rejects before
any path is created; an unsupported extension rejects before any path is
created; otherwise the upload directory and destination file are created
and the limited copy loop runs.  On a mid-copy limit violation the partial
file is unlinked and the surrounding `except` handler removes the upload
directory before the error is surfaced. -/
def save_uploaded_file (f : UploadedFile) : Except Str Unit × SaveState :=
  if f.size > MAX_FILE_SIZE_BYTES then
    (Except.error msgTooLarge, ⟨false, false, []⟩)
  else if ¬ f.suffix ∈ ALLOWED_EXTENSIONS then
    (Except.error ("Unsupported file extension: ".toList ++ f.suffix), ⟨false, false, []⟩)
  else
    match copyLoop f.content 0 [] with
    | Except.error _ => (Except.error msgLimitDuringUpload, ⟨false, false, []⟩)
    | Except.ok data => (Except.ok (), ⟨true, true, data⟩)

/-! ## Image validation (`file_utils.py`) -/

/-- Constant `MAX_IMAGE_PIXELS = 80_000_000` (file_utils.py line 13). -/
def MAX_IMAGE_PIXELS : ℕ := 80000000

/-- An image file as `validate_image_security` observes it through PIL:
whether `Image.open` can identify it, the decoded `format`, the outcome of
`verify()` (`none` for success, `some msg` for an exception message), and
the decoded dimensions. -/
structure ImageFile where
  identifiable : Bool
  format : Str
  verifyError : Option Str
  width : ℕ
  height : ℕ

/-- Decimal representation of a natural, as Python's string interpolation
prints it. -/
def natRepr (n : ℕ) : Str := Nat.toDigits 10 n

/-- Embeds `validate_image_security` (file_utils.py lines 141-170).  An
unidentifiable file raises `UnidentifiedImageError`, caught and rewrapped
as "Invalid image file.".  A format outside JPEG/PNG/WEBP/MPO raises
`ValueError(f"Unsupported format: {fmt}")`, which the generic handler
rewraps as "Image validation failed: ...";  likewise for a `verify()`
failure and for the pixel-count ceiling.  Success returns "image". -/
def validate_image_security (img : ImageFile) : Except Str Str :=
  if img.identifiable = false then
    Except.error ("Invalid image file.".toList)
  else if ¬ img.format ∈ (["JPEG".toList, "PNG".toList, "WEBP".toList, "MPO".toList] : List Str) then
    Except.error ("Image validation failed: Unsupported format: ".toList ++ img.format)
  else
    match img.verifyError with
    | some m => Except.error ("Image validation failed: ".toList ++ m)
    | none =>
      if img.width * img.height > MAX_IMAGE_PIXELS then
        Except.error ("Image validation failed: Image resolution too high (".toList ++
          natRepr img.width ++ "x".toList ++ natRepr img.height ++
          "). Limit: 80MP.".toList)
      else
        Except.ok ("image".toList)

/-! ## PDF validation (`pdf_utils.py`) -/

/-- Constant `PDF_PAGE_LIMIT = 10` (pdf_utils.py line 8). -/
def PDF_PAGE_LIMIT : ℕ := 10

/-- A successfully opened PDF document as `validate_pdf` observes it
through pymupdf: encryption flag, page count, the catalog xref number and
whether the catalog object string contains a JavaScript key. -/
structure PdfDoc where
  needs_pass : Bool
  page_count : ℕ
  catalog_xref : ℕ
  js_in_catalog : Bool

/-- The page-limit error message (pdf_utils.py line 26):
`f"PDF exceeds page limit ({doc.page_count}/{PDF_PAGE_LIMIT}). Please
upload a smaller file."`. -/
def pageLimitMsg (count : ℕ) : Str :=
  "PDF exceeds page limit (".toList ++ natRepr count ++ "/".toList ++
    natRepr PDF_PAGE_LIMIT ++ "). Please upload a smaller file.".toList

/-- Embeds `validate_pdf` (pdf_utils.py lines 10-42) on a document that opened
successfully: reject password-protected documents, then documents over the
page limit, then documents whose catalog carries a JavaScript key. -/
def validate_pdf (doc : PdfDoc) : Except Str Unit :=
  if doc.needs_pass then
    Except.error ("Password protected PDFs are not supported.".toList)
  else if doc.page_count > PDF_PAGE_LIMIT then
    Except.error (pageLimitMsg doc.page_count)
  else if doc.catalog_xref > 0 ∧ doc.js_in_catalog then
    Except.error ("PDF contains Javascript which is restricted for security.".toList)
  else
    Except.ok ()

/-! ## Helper lemmas about the reconstruction loop -/

/-- The grid region an entry claims: its merge rectangle, or the single
origin coordinate for a plain write. -/
def entryRegion (e : Entry) : Finset (ℕ × ℕ) :=
  match e.merge with
  | some q => mergeRect e.row e.col q.1 q.2
  | none => {(e.row, e.col)}

/-- The inductive invariant of the reconstruction loop: every emitted
entry's region lies inside the occupancy set, contains its own origin, the
regions are pairwise disjoint, and the preview map holds exactly the
emitted entries with `row_index < 50`, keyed by raw coordinates. -/
structure Inv (st : RState) : Prop where
  region_sub : ∀ e ∈ st.writes, entryRegion e ⊆ st.occupied
  origin_mem : ∀ e ∈ st.writes, (e.row, e.col) ∈ entryRegion e
  disj : st.writes.Pairwise fun a b => Disjoint (entryRegion a) (entryRegion b)
  lookup_iff : ∀ k : ℕ × ℕ, ∀ t : Str, lookupPv st.preview k = some t ↔
      (k.1 < 50 ∧ ∃ e ∈ st.writes, e.row = k.1 + 1 ∧ e.col = k.2 + 1 ∧ e.text = t)

/-- A string is a formula-injection risk when its first character is one
of `=`, `+`, `-`, `@`. -/
def startsWithTrigger (s : Str) : Prop :=
  match s with
  | [] => False
  | ch :: _ => ch = '=' ∨ ch = '+' ∨ ch = '-' ∨ ch = '@'

instance : DecidablePred startsWithTrigger := fun s =>
  match s with
  | [] => Decidable.isFalse (fun h => h)
  | ch :: _ => inferInstanceAs (Decidable (ch = '=' ∨ ch = '+' ∨ ch = '-' ∨ ch = '@'))

/-- Strict lexicographic order on the sort keys. -/
def keyLt (a b : Cell) : Prop :=
  a.row_index < b.row_index ∨
    (a.row_index = b.row_index ∧ a.col_index < b.col_index)

/-- Two cells with the same key `(0, 0)` but different texts. -/
def dupX : Cell := ⟨"x".toList, 0, 0, 1, 1⟩

/-- A second cell at the same origin as `dupX`. -/
def dupY : Cell := ⟨"y".toList, 0, 0, 1, 1⟩

/-- A 2×2 cell at (0, 0) whose merge claims the coordinate of the next
cell. -/
def ovA : Cell := ⟨"A".toList, 0, 0, 2, 2⟩

/-- A 1×1 cell at (1, 1), inside the rectangle claimed by `ovA`. -/
def ovB : Cell := ⟨"B".toList, 1, 1, 1, 1⟩

lemma step_of_occupied {st : RState} {cell : Cell}
    (h : originOf cell ∈ st.occupied) : step st cell = st := by
  simp [step, h]

lemma step_merge {st : RState} {cell : Cell}
    (hocc : originOf cell ∉ st.occupied)
    (hspan : cell.row_span > 1 ∨ cell.col_span > 1)
    (hsafe : safeMerge st.occupied cell) :
    step st cell =
      ⟨st.occupied ∪ cellRect cell,
       st.writes ++ [⟨cell.row_index + 1, cell.col_index + 1,
         sanitize_for_excel cell.text, some (cellEnd cell)⟩],
       stepPv st cell, stepPR st cell, stepPC st cell⟩ := by
  simp [step, hocc, hspan, hsafe]

lemma step_fallback {st : RState} {cell : Cell}
    (hocc : originOf cell ∉ st.occupied)
    (hspan : cell.row_span > 1 ∨ cell.col_span > 1)
    (hsafe : ¬ safeMerge st.occupied cell) :
    step st cell =
      ⟨insert (originOf cell) st.occupied,
       st.writes ++ [⟨cell.row_index + 1, cell.col_index + 1,
         sanitize_for_excel cell.text, none⟩],
       stepPv st cell, stepPR st cell, stepPC st cell⟩ := by
  simp [step, hocc, hspan, hsafe]

lemma step_single {st : RState} {cell : Cell}
    (hocc : originOf cell ∉ st.occupied)
    (hspan : ¬ (cell.row_span > 1 ∨ cell.col_span > 1)) :
    step st cell =
      ⟨insert (originOf cell) st.occupied,
       st.writes ++ [⟨cell.row_index + 1, cell.col_index + 1,
         sanitize_for_excel cell.text, none⟩],
       stepPv st cell, stepPR st cell, stepPC st cell⟩ := by
  simp [step, hocc, hspan]

/-- Every step appends a (possibly empty) batch of entries, all carrying
the cell's 1-based origin and sanitized text. -/
lemma step_writes_append (st : RState) (cell : Cell) :
    ∃ t : List Entry, (step st cell).writes = st.writes ++ t ∧
      ∀ e ∈ t, e.row = cell.row_index + 1 ∧ e.col = cell.col_index + 1 ∧
        e.text = sanitize_for_excel cell.text := by
  by_cases hocc : originOf cell ∈ st.occupied
  · exact ⟨[], by simp [step_of_occupied hocc]⟩
  · by_cases hspan : cell.row_span > 1 ∨ cell.col_span > 1
    · by_cases hsafe : safeMerge st.occupied cell
      · exact ⟨[⟨cell.row_index + 1, cell.col_index + 1,
          sanitize_for_excel cell.text, some (cellEnd cell)⟩],
          by simp [step_merge hocc hspan hsafe]⟩
      · exact ⟨[⟨cell.row_index + 1, cell.col_index + 1,
          sanitize_for_excel cell.text, none⟩],
          by simp [step_fallback hocc hspan hsafe]⟩
    · exact ⟨[⟨cell.row_index + 1, cell.col_index + 1,
        sanitize_for_excel cell.text, none⟩],
        by simp [step_single hocc hspan]⟩

/-- Every step prepends a (possibly empty) batch of preview bindings, all
carrying the cell's raw coordinates and sanitized text. -/
lemma step_preview_prepend (st : RState) (cell : Cell) :
    ∃ t : List ((ℕ × ℕ) × Str), (step st cell).preview = t ++ st.preview ∧
      ∀ kv ∈ t, kv.1 = (cell.row_index, cell.col_index) ∧
        kv.2 = sanitize_for_excel cell.text := by
  by_cases hocc : originOf cell ∈ st.occupied
  · exact ⟨[], by simp [step_of_occupied hocc]⟩
  · have hpv : ∃ t : List ((ℕ × ℕ) × Str), stepPv st cell = t ++ st.preview ∧
        ∀ kv ∈ t, kv.1 = (cell.row_index, cell.col_index) ∧
          kv.2 = sanitize_for_excel cell.text := by
      by_cases hlt : cell.row_index < 50
      · exact ⟨[((cell.row_index, cell.col_index), sanitize_for_excel cell.text)],
          by simp [stepPv, hlt]⟩
      · exact ⟨[], by simp [stepPv, hlt]⟩
    by_cases hspan : cell.row_span > 1 ∨ cell.col_span > 1
    · by_cases hsafe : safeMerge st.occupied cell
      · simpa [step_merge hocc hspan hsafe] using hpv
      · simpa [step_fallback hocc hspan hsafe] using hpv
    · simpa [step_single hocc hspan] using hpv

/-- All entries emitted by folding the loop over a cell list take their
text, sanitized, from one of those cells (or were present already). -/
lemma foldl_writes_text (s : List Cell) (st : RState) :
    ∀ e ∈ (s.foldl step st).writes,
      e ∈ st.writes ∨ ∃ cl ∈ s, e.text = sanitize_for_excel cl.text := by
  induction s generalizing st with
  | nil => intro e he; exact Or.inl he
  | cons c s ih =>
    intro e he
    rcases ih (step st c) e he with h | ⟨cl, hcl, ht⟩
    · rcases step_writes_append st c with ⟨t, hw, hall⟩
      rw [hw] at h
      rcases List.mem_append.1 h with h | h
      · exact Or.inl h
      · exact Or.inr ⟨c, List.mem_cons_self c s, (hall e h).2.2⟩
    · exact Or.inr ⟨cl, List.mem_cons_of_mem c hcl, ht⟩

/-- All preview bindings produced by the fold take their text, sanitized,
from one of the processed cells (or were present already). -/
lemma foldl_preview_text (s : List Cell) (st : RState) :
    ∀ kv ∈ (s.foldl step st).preview,
      kv ∈ st.preview ∨ ∃ cl ∈ s, kv.2 = sanitize_for_excel cl.text := by
  induction s generalizing st with
  | nil => intro kv h; exact Or.inl h
  | cons c s ih =>
    intro kv h
    rcases ih (step st c) kv h with h | ⟨cl, hcl, ht⟩
    · rcases step_preview_prepend st c with ⟨t, hw, hall⟩
      rw [hw] at h
      rcases List.mem_append.1 h with h | h
      · exact Or.inr ⟨c, List.mem_cons_self c s, (hall kv h).2⟩
      · exact Or.inl h
    · exact Or.inr ⟨cl, List.mem_cons_of_mem c hcl, ht⟩

lemma lookupPv_cons (k₀ : ℕ × ℕ) (t₀ : Str) (pv : List ((ℕ × ℕ) × Str)) (k : ℕ × ℕ) :
    lookupPv ((k₀, t₀) :: pv) k = if k₀ = k then some t₀ else lookupPv pv k := by
  by_cases h : k₀ = k
  · simp [lookupPv, List.find?_cons_of_pos, h]
  · rw [if_neg h]
    unfold lookupPv
    rw [List.find?_cons_of_neg]
    simp [h]

lemma originOf_mem_cellRect {cell : Cell}
    (h1 : 1 ≤ cell.row_span) (h2 : 1 ≤ cell.col_span) :
    originOf cell ∈ cellRect cell := by
  simp only [cellRect, mergeRect, cellEnd, originOf, Finset.mem_product, Finset.mem_Icc]
  omega

lemma inv_init : Inv initState :=
  ⟨by simp [initState], by simp [initState], by simp [initState],
   by simp [initState, lookupPv]⟩

/-- Appending one entry whose region is fresh (disjoint from the current
occupancy) and contains the cell's origin preserves the invariant. -/
lemma inv_extend (st : RState) (cell : Cell) (m : Option (ℕ × ℕ))
    (R : Finset (ℕ × ℕ)) (a b : ℕ) (h : Inv st)
    (hocc : originOf cell ∉ st.occupied)
    (hR : entryRegion ⟨cell.row_index + 1, cell.col_index + 1,
      sanitize_for_excel cell.text, m⟩ = R)
    (hRocc : ∀ p ∈ R, p ∉ st.occupied)
    (horig : originOf cell ∈ R) :
    Inv ⟨st.occupied ∪ R,
         st.writes ++ [⟨cell.row_index + 1, cell.col_index + 1,
           sanitize_for_excel cell.text, m⟩],
         stepPv st cell, a, b⟩ := by
  set enew : Entry := ⟨cell.row_index + 1, cell.col_index + 1,
    sanitize_for_excel cell.text, m⟩ with henew
  have horigin_new : ((enew.row, enew.col) : ℕ × ℕ) = originOf cell := by
    simp [henew, originOf]
  have hold_origin : ∀ e ∈ st.writes, ((e.row, e.col) : ℕ × ℕ) ∈ st.occupied :=
    fun e he => h.region_sub e he (h.origin_mem e he)
  refine ⟨?_, ?_, ?_, ?_⟩
  · intro e he
    rcases List.mem_append.1 he with he | he
    · exact (h.region_sub e he).trans Finset.subset_union_left
    · have : e = enew := by simpa using he
      subst this
      rw [hR]
      exact Finset.subset_union_right
  · intro e he
    rcases List.mem_append.1 he with he | he
    · exact h.origin_mem e he
    · have : e = enew := by simpa using he
      subst this
      rw [horigin_new, hR]
      exact horig
  · rw [List.pairwise_append]
    refine ⟨h.disj, by simp, ?_⟩
    intro e he e' he'
    have : e' = enew := by simpa using he'
    subst this
    rw [hR]
    rw [Finset.disjoint_left]
    intro p hp hpR
    exact hRocc p hpR (h.region_sub e he hp)
  · intro k t
    show lookupPv (stepPv st cell) k = some t ↔ _
    by_cases hlt : cell.row_index < 50
    · rw [show stepPv st cell = ((cell.row_index, cell.col_index),
        sanitize_for_excel cell.text) :: st.preview from by simp [stepPv, hlt]]
      rw [lookupPv_cons]
      by_cases hk : ((cell.row_index, cell.col_index) : ℕ × ℕ) = k
      · rw [if_pos hk]
        constructor
        · rintro hsome
          have ht : t = sanitize_for_excel cell.text := by
            simpa using hsome.symm
          subst ht
          refine ⟨?_, enew, List.mem_append.2 (Or.inr (by simp)), ?_, ?_, rfl⟩
          · rw [← hk]; exact hlt
          · simp [henew, ← hk]
          · simp [henew, ← hk]
        · rintro ⟨-, e, he, hrow, hcol, htext⟩
          rcases List.mem_append.1 he with he | he
          · exfalso
            apply hocc
            have : ((e.row, e.col) : ℕ × ℕ) = originOf cell := by
              rw [originOf, hrow, hcol, ← hk]
            rw [← this]
            exact hold_origin e he
          · have : e = enew := by simpa using he
            subst this
            rw [← htext]
      · rw [if_neg hk, h.lookup_iff k t]
        constructor
        · rintro ⟨hk1, e, he, hrest⟩
          exact ⟨hk1, e, List.mem_append.2 (Or.inl he), hrest⟩
        · rintro ⟨hk1, e, he, hrow, hcol, htext⟩
          rcases List.mem_append.1 he with he | he
          · exact ⟨hk1, e, he, hrow, hcol, htext⟩
          · exfalso
            apply hk
            have : e = enew := by simpa using he
            subst this
            have h1 : cell.row_index = k.1 := by
              have := hrow; simp [henew] at this; omega
            have h2 : cell.col_index = k.2 := by
              have := hcol; simp [henew] at this; omega
            rw [h1, h2]
    · rw [show stepPv st cell = st.preview from by simp [stepPv, hlt]]
      rw [h.lookup_iff k t]
      constructor
      · rintro ⟨hk1, e, he, hrest⟩
        exact ⟨hk1, e, List.mem_append.2 (Or.inl he), hrest⟩
      · rintro ⟨hk1, e, he, hrow, hcol, htext⟩
        rcases List.mem_append.1 he with he | he
        · exact ⟨hk1, e, he, hrow, hcol, htext⟩
        · exfalso
          have : e = enew := by simpa using he
          subst this
          have : cell.row_index = k.1 := by
            have := hrow; simp [henew] at this; omega
          omega

/-- One loop iteration preserves the invariant (spans at least 1, as the
pydantic model guarantees). -/
lemma inv_step {st : RState} {cell : Cell}
    (h1 : 1 ≤ cell.row_span) (h2 : 1 ≤ cell.col_span) (h : Inv st) :
    Inv (step st cell) := by
  by_cases hocc : originOf cell ∈ st.occupied
  · rw [step_of_occupied hocc]; exact h
  · have hins : insert (originOf cell) st.occupied =
        st.occupied ∪ ({originOf cell} : Finset (ℕ × ℕ)) := by
      rw [Finset.insert_eq, Finset.union_comm]
    by_cases hspan : cell.row_span > 1 ∨ cell.col_span > 1
    · by_cases hsafe : safeMerge st.occupied cell
      · rw [step_merge hocc hspan hsafe]
        refine inv_extend st cell (some (cellEnd cell)) (cellRect cell) _ _ h hocc
          (by simp [entryRegion, cellRect]) ?_ (originOf_mem_cellRect h1 h2)
        intro p hp hpo
        exact hocc ((hsafe p hp hpo) ▸ hpo)
      · rw [step_fallback hocc hspan hsafe, hins]
        refine inv_extend st cell none ({originOf cell} : Finset (ℕ × ℕ)) _ _ h hocc
          (by simp [entryRegion, originOf]) ?_ (Finset.mem_singleton_self _)
        intro p hp
        rw [Finset.mem_singleton] at hp
        rw [hp]
        exact hocc
    · rw [step_single hocc hspan, hins]
      refine inv_extend st cell none ({originOf cell} : Finset (ℕ × ℕ)) _ _ h hocc
        (by simp [entryRegion, originOf]) ?_ (Finset.mem_singleton_self _)
      intro p hp
      rw [Finset.mem_singleton] at hp
      rw [hp]
      exact hocc

lemma inv_foldl (s : List Cell)
    (hs : ∀ cl ∈ s, 1 ≤ cl.row_span ∧ 1 ≤ cl.col_span)
    (st : RState) (h : Inv st) : Inv (s.foldl step st) := by
  induction s generalizing st with
  | nil => exact h
  | cons c s ih =>
    have hc := hs c (List.mem_cons_self c s)
    exact ih (fun cl hcl => hs cl (List.mem_cons_of_mem c hcl)) (step st c)
      (inv_step hc.1 hc.2 h)

lemma inv_reconstruct (cells : List Cell)
    (hs : ∀ cl ∈ cells, 1 ≤ cl.row_span ∧ 1 ≤ cl.col_span) :
    Inv (reconstruct cells) := by
  refine inv_foldl (sortCells cells) ?_ initState inv_init
  intro cl hcl
  exact hs cl ((List.perm_insertionSort keyLe cells).mem_iff.1 hcl)

/-- Every non-empty value of the preview matrix is the text of some
binding of the sparse preview map. -/
lemma mem_previewMatrix_val {st : RState} {row : List Str} {v : Str}
    (hrow : row ∈ previewMatrix st) (hv : v ∈ row) :
    v = [] ∨ ∃ kv ∈ st.preview, v = kv.2 := by
  rcases List.mem_map.1 hrow with ⟨r, -, rfl⟩
  rcases List.mem_map.1 hv with ⟨c, -, rfl⟩
  rcases hpl : previewLookup st (r, c) with - | t
  · left; rfl
  · right
    have hmap := hpl
    unfold previewLookup lookupPv at hmap
    rcases Option.map_eq_some'.1 hmap with ⟨kv, hfind, hkv⟩
    exact ⟨kv, List.mem_of_find?_eq_some hfind, hkv.symm⟩

/-! ## Claim theorems -/

/-- C10: the text sanitizer is idempotent: the neutralizing prefix `'` is
not itself one of the formula-trigger characters, so sanitizing an
already-sanitized string changes nothing. -/
theorem legato_c10_sanitize_idempotent :
    ∀ s : Str, sanitize_for_excel (sanitize_for_excel s) = sanitize_for_excel s := by
  intro s
  match s with
  | [] => rfl
  | ch :: rest =>
    by_cases h : ch = '=' ∨ ch = '+' ∨ ch = '-' ∨ ch = '@'
    · rw [show sanitize_for_excel (ch :: rest) = quoteChar :: ch :: rest from by
        simp [sanitize_for_excel, h]]
      have hq : ¬ (quoteChar = '=' ∨ quoteChar = '+' ∨ quoteChar = '-' ∨ quoteChar = '@') := by
        decide
      simp [sanitize_for_excel, hq]
    · simp [sanitize_for_excel, h]

/-- C2 counterexample: on the empty cell collection the preview matrix has
1 row (a single row holding one empty string), not 0 rows as claimed. -/
theorem legato_c2_counterexample :
    (render_excel ⟨[]⟩).preview.length ≠ 0 := by decide

/-- C2 (amended): the empty cell collection yields no write entries, a
`1 × 1` preview matrix holding a single empty string, and row count 0 —
never an error. -/
theorem legato_c2_empty_layout :
    ∀ layout : TableLayout, layout.cells = [] →
      (render_excel layout).writes = [] ∧
      (render_excel layout).preview = [[[]]] ∧
      (render_excel layout).row_count = 0 := by
  rintro ⟨cs⟩ h
  subst h
  decide

/-- C2 witness: the amended claim instantiated at the empty layout. -/
theorem legato_c2_empty_layout_witness :
    (render_excel ⟨[]⟩).writes = [] ∧
    (render_excel ⟨[]⟩).preview = [[[]]] ∧
    (render_excel ⟨[]⟩).row_count = 0 :=
  legato_c2_empty_layout ⟨[]⟩ rfl

/-- C7 counterexample: an identifiable image whose decoded format is MPO —
not one of JPEG/PNG/WEBP — is accepted, not rejected (the code deliberately
allows MPO, "common for some mobile photos"). -/
theorem legato_c7_counterexample :
    ¬ ("MPO".toList ∈ (["JPEG".toList, "PNG".toList, "WEBP".toList] : List Str)) ∧
    validate_image_security ⟨true, "MPO".toList, none, 10, 10⟩ =
      Except.ok ("image".toList) := by
  exact ⟨by decide, rfl⟩

/-- C7 (amended): any image whose decoded format is not one of JPEG, PNG,
WEBP or MPO is rejected with an error. -/
theorem legato_c7_format_rejected :
    ∀ img : ImageFile,
      ¬ img.format ∈ (["JPEG".toList, "PNG".toList, "WEBP".toList, "MPO".toList] : List Str) →
      ∃ m : Str, validate_image_security img = Except.error m := by
  intro img hfmt
  by_cases hid : img.identifiable = false
  · refine ⟨"Invalid image file.".toList, ?_⟩
    unfold validate_image_security
    rw [if_pos hid]
  · refine ⟨"Image validation failed: Unsupported format: ".toList ++ img.format, ?_⟩
    unfold validate_image_security
    rw [if_neg hid, if_pos hfmt]

/-- C7 witness: a GIF image is rejected. -/
theorem legato_c7_format_rejected_witness :
    ∃ m : Str, validate_image_security ⟨true, "GIF".toList, none, 10, 10⟩ =
      Except.error m :=
  legato_c7_format_rejected ⟨true, "GIF".toList, none, 10, 10⟩ (by decide)

/-- C9: a PDF that opened, is not password-protected and has more than 10
pages is rejected, and the error message contains both the actual page
count and the limit 10. -/
theorem legato_c9_page_limit :
    ∀ doc : PdfDoc, doc.needs_pass = false → doc.page_count > 10 →
      validate_pdf doc = Except.error (pageLimitMsg doc.page_count) ∧
      (∃ u v : Str, u ++ natRepr doc.page_count ++ v = pageLimitMsg doc.page_count) ∧
      (∃ u v : Str, u ++ natRepr 10 ++ v = pageLimitMsg doc.page_count) := by
  intro doc h1 h2
  refine ⟨?_, ?_, ?_⟩
  · simp [validate_pdf, h1, PDF_PAGE_LIMIT, h2]
  · exact ⟨"PDF exceeds page limit (".toList,
      "/".toList ++ natRepr PDF_PAGE_LIMIT ++ "). Please upload a smaller file.".toList,
      by simp [pageLimitMsg, List.append_assoc]⟩
  · refine ⟨"PDF exceeds page limit (".toList ++ natRepr doc.page_count ++ "/".toList,
      "). Please upload a smaller file.".toList, ?_⟩
    show _ = pageLimitMsg doc.page_count
    rw [pageLimitMsg]
    simp only [List.append_assoc]
    rfl

/-- C8: a string starting with a formula trigger is emitted as the
neutralizing quote followed by the original string unchanged; any other
string (the empty one included) is emitted unchanged; and every text
placed in the plan or the preview matrix is the sanitized text of one of
the input cells. -/
theorem legato_c8_sanitization_applied :
    (∀ s : Str, startsWithTrigger s → sanitize_for_excel s = quoteChar :: s) ∧
    (∀ s : Str, ¬ startsWithTrigger s → sanitize_for_excel s = s) ∧
    (∀ layout : TableLayout, ∀ e ∈ (render_excel layout).writes,
      ∃ cl ∈ layout.cells, e.text = sanitize_for_excel cl.text) ∧
    (∀ layout : TableLayout, ∀ row ∈ (render_excel layout).preview, ∀ v ∈ row,
      v = [] ∨ ∃ cl ∈ layout.cells, v = sanitize_for_excel cl.text) := by
  refine ⟨?_, ?_, ?_, ?_⟩
  · intro s h
    match s with
    | [] => exact h.elim
    | ch :: rest =>
      have htrig : ch = '=' ∨ ch = '+' ∨ ch = '-' ∨ ch = '@' := h
      simp [sanitize_for_excel, htrig]
  · intro s h
    match s with
    | [] => rfl
    | ch :: rest =>
      have hne : ¬ (ch = '=' ∨ ch = '+' ∨ ch = '-' ∨ ch = '@') := h
      simp [sanitize_for_excel, hne]
  · intro layout e he
    have he' : e ∈ ((sortCells layout.cells).foldl step initState).writes := he
    rcases foldl_writes_text (sortCells layout.cells) initState e he' with h | ⟨cl, hcl, ht⟩
    · exact absurd h (List.not_mem_nil e)
    · exact ⟨cl, (List.perm_insertionSort keyLe layout.cells).mem_iff.1 hcl, ht⟩
  · intro layout row hrow v hv
    have hrow' : row ∈ previewMatrix (reconstruct layout.cells) := hrow
    rcases mem_previewMatrix_val hrow' hv with h | ⟨kv, hkv, hvkv⟩
    · exact Or.inl h
    · right
      have hkv' : kv ∈ ((sortCells layout.cells).foldl step initState).preview := hkv
      rcases foldl_preview_text (sortCells layout.cells) initState kv hkv' with h | ⟨cl, hcl, ht⟩
      · exact absurd h (List.not_mem_nil kv)
      · exact ⟨cl, (List.perm_insertionSort keyLe layout.cells).mem_iff.1 hcl, hvkv.trans ht⟩

/-- C8 witness: the sanitizer on `=1` and on `abc`, and the plan and
preview of a one-cell layout whose text is `=1`. -/
theorem legato_c8_sanitization_applied_witness :
    sanitize_for_excel ('=' :: "1".toList) = quoteChar :: '=' :: "1".toList ∧
    sanitize_for_excel ("abc".toList) = "abc".toList ∧
    (∃ cl ∈ (⟨[⟨'=' :: "1".toList, 0, 0, 1, 1⟩]⟩ : TableLayout).cells,
      (⟨1, 1, quoteChar :: '=' :: "1".toList, none⟩ : Entry).text =
        sanitize_for_excel cl.text) ∧
    ((quoteChar :: '=' :: "1".toList) = [] ∨
      ∃ cl ∈ (⟨[⟨'=' :: "1".toList, 0, 0, 1, 1⟩]⟩ : TableLayout).cells,
        (quoteChar :: '=' :: "1".toList) = sanitize_for_excel cl.text) :=
  ⟨legato_c8_sanitization_applied.1 ('=' :: "1".toList) (by decide),
   legato_c8_sanitization_applied.2.1 ("abc".toList) (by decide),
   legato_c8_sanitization_applied.2.2.1 ⟨[⟨'=' :: "1".toList, 0, 0, 1, 1⟩]⟩
     ⟨1, 1, quoteChar :: '=' :: "1".toList, none⟩ (by decide),
   legato_c8_sanitization_applied.2.2.2 ⟨[⟨'=' :: "1".toList, 0, 0, 1, 1⟩]⟩
     [quoteChar :: '=' :: "1".toList] (by decide)
     (quoteChar :: '=' :: "1".toList) (by decide)⟩

/-- If the running total is still within the limit but the remaining bytes
push past it, the copy loop aborts. -/
lemma copyLoop_exceeds :
    ∀ n (rem : List ℕ), rem.length ≤ n → ∀ (total : ℕ) (w : List ℕ),
      total ≤ MAX_FILE_SIZE_BYTES → total + rem.length > MAX_FILE_SIZE_BYTES →
      copyLoop rem total w = Except.error () := by
  intro n
  induction n with
  | zero =>
    intro rem hlen total w h1 h2
    have : rem = [] := List.eq_nil_of_length_eq_zero (Nat.le_zero.1 hlen)
    subst this
    exfalso
    simp at h2
    omega
  | succ n ih =>
    intro rem hlen total w h1 h2
    rw [copyLoop]
    by_cases hrem : rem = []
    · exfalso
      subst hrem
      simp at h2
      omega
    · rw [if_neg hrem]
      by_cases hc : total + (rem.take (1024 * 1024)).length > MAX_FILE_SIZE_BYTES
      · rw [if_pos hc]
      · rw [if_neg hc]
        have hlen1 : 1 ≤ rem.length := by
          cases rem with
          | nil => exact absurd rfl hrem
          | cons a l => simp
        simp only [List.length_take] at hc
        apply ih
        · simp only [List.length_drop]; omega
        · simp only [List.length_take]; omega
        · simp only [List.length_take, List.length_drop]; omega

/-- C6: every upload over the 20 MiB limit — whether by its reported size
attribute or by its actual streamed content (with an allow-listed
extension, so the copy phase is reached) — fails with a size-limit error
and leaves neither the destination file nor the upload directory on disk. -/
theorem legato_c6_size_limit_no_residue :
    ∀ f : UploadedFile,
      (f.size > MAX_FILE_SIZE_BYTES ∨
        (f.content.length > MAX_FILE_SIZE_BYTES ∧ f.suffix ∈ ALLOWED_EXTENSIONS)) →
      ((save_uploaded_file f).1 = Except.error msgTooLarge ∨
        (save_uploaded_file f).1 = Except.error msgLimitDuringUpload) ∧
      (save_uploaded_file f).2.fileExists = false ∧
      (save_uploaded_file f).2.dirExists = false ∧
      (save_uploaded_file f).2.fileContent = [] := by
  intro f h
  by_cases hsize : f.size > MAX_FILE_SIZE_BYTES
  · rw [show save_uploaded_file f = (Except.error msgTooLarge, ⟨false, false, []⟩) from by
      unfold save_uploaded_file; rw [if_pos hsize]]
    exact ⟨Or.inl rfl, rfl, rfl, rfl⟩
  · rcases h with h | ⟨hlen, hsuf⟩
    · exact absurd h hsize
    · have hloop : copyLoop f.content 0 [] = Except.error () :=
        copyLoop_exceeds f.content.length f.content le_rfl 0 []
          (Nat.zero_le _) (by omega)
      rw [show save_uploaded_file f = (Except.error msgLimitDuringUpload, ⟨false, false, []⟩) from by
        unfold save_uploaded_file
        rw [if_neg hsize, if_neg (by simpa using hsuf), hloop]]
      exact ⟨Or.inr rfl, rfl, rfl, rfl⟩

/-- C6 witness: an upload whose reported size is one byte over the limit. -/
theorem legato_c6_size_limit_no_residue_witness :
    ((save_uploaded_file ⟨MAX_FILE_SIZE_BYTES + 1, ".png".toList, []⟩).1 =
        Except.error msgTooLarge ∨
      (save_uploaded_file ⟨MAX_FILE_SIZE_BYTES + 1, ".png".toList, []⟩).1 =
        Except.error msgLimitDuringUpload) ∧
    (save_uploaded_file ⟨MAX_FILE_SIZE_BYTES + 1, ".png".toList, []⟩).2.fileExists = false ∧
    (save_uploaded_file ⟨MAX_FILE_SIZE_BYTES + 1, ".png".toList, []⟩).2.dirExists = false ∧
    (save_uploaded_file ⟨MAX_FILE_SIZE_BYTES + 1, ".png".toList, []⟩).2.fileContent = [] :=
  legato_c6_size_limit_no_residue ⟨MAX_FILE_SIZE_BYTES + 1, ".png".toList, []⟩
    (Or.inl (by decide))

/-- C4: processing one cell in sorted order — an occupied origin is
skipped entirely; a 1×1 cell is emitted as a plain write with its origin
marked occupied; a larger cell whose target rectangle holds an occupied
coordinate other than its origin falls back to a plain unmerged write at
the origin only; and otherwise it is emitted as a full-rectangle merge
with every coordinate of the rectangle marked occupied. -/
theorem legato_c4_step_cases :
    ∀ (st : RState) (cell : Cell), 1 ≤ cell.row_span → 1 ≤ cell.col_span →
      (originOf cell ∈ st.occupied → step st cell = st) ∧
      (originOf cell ∉ st.occupied → cell.row_span = 1 ∧ cell.col_span = 1 →
        (step st cell).writes = st.writes ++
          [⟨cell.row_index + 1, cell.col_index + 1, sanitize_for_excel cell.text, none⟩] ∧
        (step st cell).occupied = insert (originOf cell) st.occupied) ∧
      (originOf cell ∉ st.occupied → (1 < cell.row_span ∨ 1 < cell.col_span) →
        (∃ p ∈ cellRect cell, p ≠ originOf cell ∧ p ∈ st.occupied) →
        (step st cell).writes = st.writes ++
          [⟨cell.row_index + 1, cell.col_index + 1, sanitize_for_excel cell.text, none⟩] ∧
        (step st cell).occupied = insert (originOf cell) st.occupied) ∧
      (originOf cell ∉ st.occupied → (1 < cell.row_span ∨ 1 < cell.col_span) →
        (∀ p ∈ cellRect cell, p ≠ originOf cell → p ∉ st.occupied) →
        (step st cell).writes = st.writes ++
          [⟨cell.row_index + 1, cell.col_index + 1, sanitize_for_excel cell.text,
            some (cellEnd cell)⟩] ∧
        (step st cell).occupied = st.occupied ∪ cellRect cell) := by
  intro st cell h1 h2
  refine ⟨step_of_occupied, ?_, ?_, ?_⟩
  · intro hocc hone
    have hspan : ¬ (cell.row_span > 1 ∨ cell.col_span > 1) := by omega
    rw [step_single hocc hspan]
    exact ⟨rfl, rfl⟩
  · intro hocc hspan hconf
    have hsafe : ¬ safeMerge st.occupied cell := by
      rcases hconf with ⟨p, hp, hpo, hpocc⟩
      intro hsafe
      exact hpo (hsafe p hp hpocc)
    rw [step_fallback hocc hspan hsafe]
    exact ⟨rfl, rfl⟩
  · intro hocc hspan hnoconf
    have hsafe : safeMerge st.occupied cell := by
      intro p hp hpocc
      by_contra hne
      exact hnoconf p hp hne hpocc
    rw [step_merge hocc hspan hsafe]
    exact ⟨rfl, rfl⟩

/-- C4 witness: the four cases at concrete states and cells — an occupied
origin, a fresh 1×1 cell, a 1×2 cell whose rectangle hits an occupied
coordinate, and a fresh 2×2 merge. -/
theorem legato_c4_step_cases_witness :
    (step ⟨{(1, 1)}, [], [], 0, 0⟩ ⟨"x".toList, 0, 0, 1, 1⟩ = ⟨{(1, 1)}, [], [], 0, 0⟩) ∧
    ((step initState ⟨"x".toList, 0, 0, 1, 1⟩).writes =
        [⟨1, 1, "x".toList, none⟩] ∧
      (step initState ⟨"x".toList, 0, 0, 1, 1⟩).occupied =
        insert (originOf ⟨"x".toList, 0, 0, 1, 1⟩) ∅) ∧
    ((step ⟨{(1, 2)}, [], [], 0, 0⟩ ⟨"y".toList, 0, 0, 1, 2⟩).writes =
        [⟨1, 1, "y".toList, none⟩] ∧
      (step ⟨{(1, 2)}, [], [], 0, 0⟩ ⟨"y".toList, 0, 0, 1, 2⟩).occupied =
        insert (originOf ⟨"y".toList, 0, 0, 1, 2⟩) {(1, 2)}) ∧
    ((step initState ⟨"z".toList, 0, 0, 2, 2⟩).writes =
        [⟨1, 1, "z".toList, some (2, 2)⟩] ∧
      (step initState ⟨"z".toList, 0, 0, 2, 2⟩).occupied =
        (∅ : Finset (ℕ × ℕ)) ∪ cellRect ⟨"z".toList, 0, 0, 2, 2⟩) :=
  ⟨(legato_c4_step_cases ⟨{(1, 1)}, [], [], 0, 0⟩ ⟨"x".toList, 0, 0, 1, 1⟩
      (by decide) (by decide)).1 (by decide),
   (legato_c4_step_cases initState ⟨"x".toList, 0, 0, 1, 1⟩
      (by decide) (by decide)).2.1 (by decide) (by decide),
   (legato_c4_step_cases ⟨{(1, 2)}, [], [], 0, 0⟩ ⟨"y".toList, 0, 0, 1, 2⟩
      (by decide) (by decide)).2.2.1 (by decide) (by decide) (by decide),
   (legato_c4_step_cases initState ⟨"z".toList, 0, 0, 2, 2⟩
      (by decide) (by decide)).2.2.2 (by decide) (by decide) (by decide)⟩

/-- C5: in every emitted plan no two entries share a (row, col) write
origin, and the claimed regions — merge rectangles plus single-cell
occupations — are pairwise disjoint. -/
theorem legato_c5_plan_disjoint :
    ∀ layout : TableLayout,
      (∀ cl ∈ layout.cells, 1 ≤ cl.row_span ∧ 1 ≤ cl.col_span) →
      ((render_excel layout).writes.Pairwise fun a b =>
        ((a.row, a.col) : ℕ × ℕ) ≠ (b.row, b.col)) ∧
      ((render_excel layout).writes.Pairwise fun a b =>
        Disjoint (entryRegion a) (entryRegion b)) := by
  intro layout hs
  have inv := inv_reconstruct layout.cells hs
  have hw : (render_excel layout).writes = (reconstruct layout.cells).writes := rfl
  refine ⟨?_, ?_⟩
  · rw [hw]
    refine List.Pairwise.imp_of_mem ?_ inv.disj
    intro a b ha hb hdisj heq
    exact Finset.disjoint_left.1 hdisj (inv.origin_mem a ha)
      (heq ▸ inv.origin_mem b hb)
  · rw [hw]
    exact inv.disj

/-- C5 witness: a two-cell layout with a merge and a plain cell. -/
theorem legato_c5_plan_disjoint_witness :
    ((render_excel ⟨[⟨"h".toList, 0, 0, 1, 2⟩, ⟨"w".toList, 1, 0, 1, 1⟩]⟩).writes.Pairwise
      fun a b => ((a.row, a.col) : ℕ × ℕ) ≠ (b.row, b.col)) ∧
    ((render_excel ⟨[⟨"h".toList, 0, 0, 1, 2⟩, ⟨"w".toList, 1, 0, 1, 1⟩]⟩).writes.Pairwise
      fun a b => Disjoint (entryRegion a) (entryRegion b)) :=
  legato_c5_plan_disjoint ⟨[⟨"h".toList, 0, 0, 1, 2⟩, ⟨"w".toList, 1, 0, 1, 1⟩]⟩
    (by decide)

/-- C3 counterexample: `ovB` has `rowIndex = 1 < 50`, yet its sanitized
text appears nowhere in the preview — it was skipped by the occupancy
check (its origin lies inside `ovA`'s merge), so the preview is *not*
independent of the plan's occupancy bookkeeping. -/
theorem legato_c3_counterexample :
    ovB ∈ (⟨[ovA, ovB]⟩ : TableLayout).cells ∧ ovB.row_index < 50 ∧
    previewLookup (reconstruct [ovA, ovB]) (ovB.row_index, ovB.col_index) = none ∧
    (render_excel ⟨[ovA, ovB]⟩).preview = [[sanitize_for_excel ovA.text]] ∧
    sanitize_for_excel ovB.text ≠ sanitize_for_excel ovA.text := by
  decide

/-- C3 (amended): the sparse preview holds exactly the texts of the plan's
written entries whose row index is below 50, at their raw 0-based
coordinates — so the preview tracks occupancy resolution (skipped cells
are absent) rather than being independent of it. -/
theorem legato_c3_preview_matches_plan :
    ∀ layout : TableLayout,
      (∀ cl ∈ layout.cells, 1 ≤ cl.row_span ∧ 1 ≤ cl.col_span) →
      ∀ (k : ℕ × ℕ) (t : Str),
        previewLookup (reconstruct layout.cells) k = some t ↔
          (k.1 < 50 ∧ ∃ e ∈ (render_excel layout).writes,
            e.row = k.1 + 1 ∧ e.col = k.2 + 1 ∧ e.text = t) := by
  intro layout hs k t
  exact (inv_reconstruct layout.cells hs).lookup_iff k t

/-- C3 witness: the amended correspondence at a one-cell layout. -/
theorem legato_c3_preview_matches_plan_witness :
    previewLookup (reconstruct [⟨"A".toList, 0, 0, 1, 1⟩]) (0, 0) = some ("A".toList) ↔
      ((0 : ℕ) < 50 ∧ ∃ e ∈ (render_excel ⟨[⟨"A".toList, 0, 0, 1, 1⟩]⟩).writes,
        e.row = 0 + 1 ∧ e.col = 0 + 1 ∧ e.text = "A".toList) :=
  legato_c3_preview_matches_plan ⟨[⟨"A".toList, 0, 0, 1, 1⟩]⟩ (by decide)
    (0, 0) ("A".toList)

/-- C1 counterexample: two input orderings of the same cell set (two cells
sharing the origin key `(0, 0)`) yield different plans — the stable sort
keys equal-key cells in input order, and the first one processed claims
the origin while the other is skipped. -/
theorem legato_c1_counterexample :
    ([dupY, dupX] : List Cell).Perm [dupX, dupY] ∧
    (render_excel ⟨[dupX, dupY]⟩).writes ≠ (render_excel ⟨[dupY, dupX]⟩).writes :=
  ⟨by decide, by decide⟩

/-- C1 (amended): when the cells' (rowIndex, colIndex) origin keys are
pairwise distinct, reconstruction is invariant under permutation of the
input: every input ordering produces the identical loop state (occupancy,
writes and preview) and the identical conversion result. -/
theorem legato_c1_order_invariant :
    ∀ l₁ l₂ : List Cell,
      l₁.Pairwise (fun a b =>
        ((a.row_index, a.col_index) : ℕ × ℕ) ≠ (b.row_index, b.col_index)) →
      l₁.Perm l₂ →
      reconstruct l₁ = reconstruct l₂ ∧ render_excel ⟨l₁⟩ = render_excel ⟨l₂⟩ := by
  intro l₁ l₂ hkeys hperm
  have hsym : ∀ {x y : Cell},
      ((x.row_index, x.col_index) : ℕ × ℕ) ≠ (y.row_index, y.col_index) →
      ((y.row_index, y.col_index) : ℕ × ℕ) ≠ (x.row_index, x.col_index) :=
    fun h => h.symm
  have hsort : sortCells l₁ = sortCells l₂ := by
    have hp1 : (sortCells l₁).Perm l₁ := List.perm_insertionSort keyLe l₁
    have hp2 : (sortCells l₂).Perm l₂ := List.perm_insertionSort keyLe l₂
    have hk1 := (hp1.pairwise_iff hsym).2 hkeys
    have hk2 := (hp2.pairwise_iff hsym).2 ((hperm.pairwise_iff hsym).1 hkeys)
    have hstrict : ∀ {l : List Cell}, List.Sorted keyLe l →
        l.Pairwise (fun a b =>
          ((a.row_index, a.col_index) : ℕ × ℕ) ≠ (b.row_index, b.col_index)) →
        List.Sorted keyLt l := by
      intro l hle hne
      refine (hle.and hne).imp ?_
      intro a b hab
      rcases hab with ⟨hle', hne'⟩
      have hne'' : ¬ (a.row_index = b.row_index ∧ a.col_index = b.col_index) := by
        rintro ⟨hr, hc⟩
        exact hne' (by rw [hr, hc])
      unfold keyLe at hle'
      unfold keyLt
      omega
    haveI : IsAntisymm Cell keyLt := ⟨by
      intro a b hab hba
      exfalso
      unfold keyLt at hab hba
      omega⟩
    exact List.eq_of_perm_of_sorted (hp1.trans (hperm.trans hp2.symm))
      (hstrict (List.sorted_insertionSort keyLe l₁) hk1)
      (hstrict (List.sorted_insertionSort keyLe l₂) hk2)
  have hrec : reconstruct l₁ = reconstruct l₂ := by
    unfold reconstruct
    rw [hsort]
  refine ⟨hrec, ?_⟩
  have hmax : maxRows l₁ = maxRows l₂ := by
    unfold maxRows
    haveI : RightCommutative (fun (m : ℕ) (cl : Cell) =>
        max m (cl.row_index + cl.row_span)) := ⟨by intro b a₁ a₂; omega⟩
    exact hperm.foldl_eq 0
  show ConversionResult.mk (reconstruct l₁).writes
      (previewMatrix (reconstruct l₁)) (maxRows l₁) = _
  rw [hrec, hmax]
  rfl

/-- C1 witness: two orderings of a two-cell set with distinct keys. -/
theorem legato_c1_order_invariant_witness :
    reconstruct [⟨"a".toList, 0, 0, 1, 1⟩, ⟨"b".toList, 0, 1, 1, 1⟩] =
      reconstruct [⟨"b".toList, 0, 1, 1, 1⟩, ⟨"a".toList, 0, 0, 1, 1⟩] ∧
    render_excel ⟨[⟨"a".toList, 0, 0, 1, 1⟩, ⟨"b".toList, 0, 1, 1, 1⟩]⟩ =
      render_excel ⟨[⟨"b".toList, 0, 1, 1, 1⟩, ⟨"a".toList, 0, 0, 1, 1⟩]⟩ :=
  legato_c1_order_invariant
    [⟨"a".toList, 0, 0, 1, 1⟩, ⟨"b".toList, 0, 1, 1, 1⟩]
    [⟨"b".toList, 0, 1, 1, 1⟩, ⟨"a".toList, 0, 0, 1, 1⟩]
    (by decide) (by decide)

/-- C9 witness: an 11-page unencrypted PDF. -/
theorem legato_c9_page_limit_witness :
    validate_pdf ⟨false, 11, 0, false⟩ = Except.error (pageLimitMsg 11) ∧
    (∃ u v : Str, u ++ natRepr 11 ++ v = pageLimitMsg 11) ∧
    (∃ u v : Str, u ++ natRepr 10 ++ v = pageLimitMsg 11) :=
  legato_c9_page_limit ⟨false, 11, 0, false⟩ rfl (by decide)

end Legato
